import Mathlib

/-!
Shallow embedding of the `parallel-python-twitter` repository.

The embedding translates, from the source:
  * `parallel_twitter/error.py` — error classification predicates;
  * `parallel_twitter/twitter_operator.py` — credential handles (`TwitterOp`),
    their renewal-time refresh, and the per-operation request rates;
  * `parallel_twitter/parallel_client.py` — the credential-rotating scheduler
    `_parallel_call`, the paginators `users_lookup`, `get_user_timeline`,
    `get_followers`;
  * `parallel_twitter/examples.py` — the breadth-first in-degree traversal
    `calculate_industry_group`.

Modelling conventions:
  * Time is an exact rational clock that advances only through `time.sleep`;
    `time.time()` reads the clock.  Sleeps are recorded as explicit events.
  * The wire client (`twitter.Api`) is an external collaborator; one call of
    `op.invoke(...)` is modelled by an oracle mapping the handle's unique id
    to an outcome (success, or a `TwitterError` together with the data the
    post-failure quota probe `_reset_renewal_time` would observe).
  * `heapq` is modelled as a multiset with a deterministic pop-min
    (first handle of minimal renewal time); `heappush` appends.  Every claim
    settled below depends only on multiset contents / minimality, never on
    the binary-heap array layout.
  * Python's `ZeroDivisionError` (raised by `60 / len(...)` when an operation
    kind has no registered handles) is an explicit error constructor.
-/

namespace ParallelTwitter

/-! ### error.py -/

/-- Shape of `TwitterError.message`: the Python client either carries a plain
string or a list of dicts with a `code` field (we keep the codes). -/
inductive TwMessage where
  | str (s : String)
  | codes (l : List Nat)
deriving DecidableEq

/-- The `twitter.TwitterError` exception: only its `message` is inspected. -/
structure TwitterError where
  message : TwMessage
deriving DecidableEq

/-- Translation of `error.not_authorized_error`: the message is the exact
string `Not authorized.`. -/
def not_authorized_error (ex : TwitterError) : Bool :=
  match ex.message with
  | .str s => s == "Not authorized."
  | _ => false

/-- Translation of `error.rate_limit_error`: the message is a list of dicts
and the first dict's `code` is 420, 429 or 88. -/
def rate_limit_error (ex : TwitterError) : Bool :=
  match ex.message with
  | .codes (c :: _) => c == 420 || c == 429 || c == 88
  | _ => false

/-- How a `_parallel_call` can fail: `outOfKeys` is `error.OutOfKeysError`;
`zeroDivision` is Python's `ZeroDivisionError`, raised when the stagger
computation `60 / len(self.operators[fn])` divides by zero. -/
inductive CallError where
  | outOfKeys
  | zeroDivision
deriving DecidableEq

/-! ### twitter_operator.py -/

/-- A credential handle: `TwitterOp` pairs one credential (identified here by
`uid`, the constructor's `unique_id`) with a cached rate-limit renewal time. -/
structure TwitterOp where
  uid : Nat
  renewal_time : ℚ
deriving DecidableEq

/-- Translation of `TwitterOp._reset_renewal_time`, run by `invoke` after a
failed call: probe the quota (`CheckRateLimit`), and if no calls remain,
cache the reported reset time as the new renewal time. -/
def resetRenewalTime (op : TwitterOp) (remaining : Nat) (reset : ℚ) : TwitterOp :=
  if remaining = 0 then { op with renewal_time := reset } else op

/-- The operation kinds registered in `ParallelTwitterClient.OPERATORS`. -/
inductive OpKind where
  | getFavorites
  | getFollowerIDs
  | getFriendIDs
  | getUserTimeline
  | statusesLookup
  | usersLookup
deriving DecidableEq

/-- The `reqs_per_minute` class attribute of each operator
(`TwitterOp` default 1, overridden to 5 or 60 by subclasses). -/
def reqs_per_minute : OpKind → ℚ
  | .getFavorites => 5
  | .getFollowerIDs => 1
  | .getFriendIDs => 1
  | .getUserTimeline => 60
  | .statusesLookup => 60
  | .usersLookup => 60

/-- Outcome of one `op.invoke(*params)` call, as supplied by the external
wire client: success with a result, or a `TwitterError` together with the
`(remaining, reset)` pair that the post-failure quota probe observes. -/
inductive InvokeOutcome (α : Type) where
  | ok (r : α)
  | err (ex : TwitterError) (remaining : Nat) (reset : ℚ)

/-- Whether an outcome is a not-authorized `TwitterError`. -/
def InvokeOutcome.isNotAuth {α : Type} : InvokeOutcome α → Bool
  | .err ex _ _ => not_authorized_error ex
  | _ => false

/-- Whether an outcome is a rate-limit `TwitterError`. -/
def InvokeOutcome.isRateLimited {α : Type} : InvokeOutcome α → Bool
  | .err ex _ _ => rate_limit_error ex
  | _ => false

/-- Whether an outcome is a `TwitterError` of any other kind (neither
not-authorized nor rate-limited): the classification that `_parallel_call`
leaves out of `attempted_keys`. -/
def InvokeOutcome.isOtherErr {α : Type} : InvokeOutcome α → Bool
  | .err ex _ _ => !(not_authorized_error ex) && !(rate_limit_error ex)
  | _ => false

/-! ### parallel_client.py — scheduler state and heap operations -/

/-- Observable actions of one `_parallel_call`: every `time.sleep` and every
`op.invoke` (by the handle's unique id), in program order. -/
inductive Event where
  | sleep (d : ℚ)
  | invoke (uid : Nat)
deriving DecidableEq

/-- Translation of `_add_all_to_heap`: push every element of `lst` onto the
heap (multiset view: append). -/
def addAll (lst heap : List TwitterOp) : List TwitterOp :=
  heap ++ lst

/-- Model of `heapq.heappop`: remove the first handle of minimal
`renewal_time` (the `≤` tie-break keeps the earlier handle, making the model
deterministic; `TwitterOp.__lt__` compares renewal times only). -/
def popMin : List TwitterOp → Option (TwitterOp × List TwitterOp)
  | [] => none
  | o :: rest =>
    match popMin rest with
    | none => some (o, [])
    | some (m, rest') =>
      if o.renewal_time ≤ m.renewal_time then some (o, rest) else some (m, o :: rest')

/-- State of a `ParallelTwitterClient` plus the model clock: one credential
queue per operation kind, and the `last_call` stagger clock and `n_requests`
counter shared across every operation kind. -/
structure ClientState where
  operators : OpKind → List TwitterOp
  last_call : ℚ
  n_requests : Nat
  now : ℚ

/-- Result of one `_parallel_call`: the returned value (or raised error), the
client state afterwards, and the observable events. -/
structure CallResult (α : Type) where
  result : Except CallError α
  state : ClientState
  events : List Event

/-- Result of the credential trial loop inside `_parallel_call`. -/
structure LoopResult (α : Type) where
  result : Except CallError α
  heap : List TwitterOp
  now : ℚ
  events : List Event

/-- The stagger spacing `60 / len(self.operators[fn]) / fn.reqs_per_minute`
computed at the top of `_parallel_call`. -/
def staggerRate (fn : OpKind) (st : ClientState) : ℚ :=
  60 / ((st.operators fn).length : ℚ) / reqs_per_minute fn

/-- The sleep events emitted by the stagger step of `_parallel_call`. -/
def staggerEvents (fn : OpKind) (st : ClientState) : List Event :=
  if st.now - st.last_call < staggerRate fn st then
    [Event.sleep (staggerRate fn st - (st.now - st.last_call))]
  else []

/-- The clock value right after the stagger step of `_parallel_call`
(also the value stored into `self.last_call`). -/
def staggeredNow (fn : OpKind) (st : ClientState) : ℚ :=
  if st.now - st.last_call < staggerRate fn st then
    st.now + (staggerRate fn st - (st.now - st.last_call))
  else st.now

/-- The sleep emitted by lines 84–87 of `_parallel_call`: when the popped
handle's renewal time is still in the future, sleep
`op.renewal_time - time.time() + 1` seconds. -/
def sleepEvsFor (op : TwitterOp) (now : ℚ) : List Event :=
  if now < op.renewal_time then [Event.sleep (op.renewal_time - now + 1)] else []

/-- The clock after the renewal-time wait: `renewal_time + 1` when the
renewal time was in the future, unchanged otherwise. -/
def afterWait (op : TwitterOp) (now : ℚ) : ℚ :=
  if now < op.renewal_time then op.renewal_time + 1 else now

/-- Translation of the credential trial loop of `_parallel_call`
(`for _ in range(len(self.operators[fn])): ...`).  `iters` is the remaining
iteration count, `heap` the current queue, `attempted` the `attempted_keys`
list, `now` the clock.  Each iteration pops the soonest-available handle,
waits out a future renewal time plus one second, invokes the credential and
classifies any `TwitterError` exactly as lines 88–101 of the source do. -/
def trialLoop {α : Type} (oracle : Nat → InvokeOutcome α) (emptyRes : α) :
    Nat → List TwitterOp → List TwitterOp → ℚ → LoopResult α
  | 0, heap, attempted, now =>
    ⟨.error .outOfKeys, addAll attempted heap, now, []⟩
  | iters + 1, heap, attempted, now =>
    match popMin heap with
    | none => ⟨.error .outOfKeys, addAll attempted heap, now, []⟩
    | some (op, rest) =>
      let sleepEvs : List Event := sleepEvsFor op now
      let now1 : ℚ := afterWait op now
      match oracle op.uid with
      | .ok r =>
        ⟨.ok r, addAll (attempted ++ [op]) rest, now1, sleepEvs ++ [Event.invoke op.uid]⟩
      | .err ex remaining reset =>
        let op' := resetRenewalTime op remaining reset
        let attempted' :=
          if not_authorized_error ex || rate_limit_error ex then attempted ++ [op']
          else attempted
        if not_authorized_error ex then
          ⟨.ok emptyRes, addAll attempted' rest, now1, sleepEvs ++ [Event.invoke op.uid]⟩
        else
          let r := trialLoop oracle emptyRes iters rest attempted' now1
          ⟨r.result, r.heap, r.now, sleepEvs ++ [Event.invoke op.uid] ++ r.events⟩

/-- Translation of `ParallelTwitterClient._parallel_call`.  When the
operation kind has no registered handles the stagger computation
`60 / len(self.operators[fn])` raises `ZeroDivisionError` before any state
is touched; otherwise the call staggers, bumps `n_requests`, runs the trial
loop, and writes the loop's heap back for `fn` only. -/
def parallelCall {α : Type} (fn : OpKind) (oracle : Nat → InvokeOutcome α)
    (emptyRes : α) (st : ClientState) : CallResult α :=
  if (st.operators fn).length = 0 then
    ⟨.error .zeroDivision, st, []⟩
  else
    let now1 := staggeredNow fn st
    let lr := trialLoop oracle emptyRes (st.operators fn).length (st.operators fn) [] now1
    ⟨lr.result,
     { operators := Function.update st.operators fn lr.heap,
       last_call := now1,
       n_requests := st.n_requests + 1,
       now := lr.now },
     staggerEvents fn st ++ lr.events⟩

/-- Unique ids of the handles on a queue. -/
def uids (l : List TwitterOp) : List Nat :=
  l.map TwitterOp.uid

/-- Number of invocations in an event list whose outcome is an error of
unclassified kind (neither not-authorized nor rate-limited): exactly the
handles that `_parallel_call` never returns to the queue. -/
def droppedCount {α : Type} (oracle : Nat → InvokeOutcome α) (evs : List Event) : Nat :=
  evs.countP (fun e =>
    match e with
    | .invoke u => (oracle u).isOtherErr
    | .sleep _ => false)

/-! ### Basic lemmas about the heap model and event accounting -/

theorem popMin_eq_none {l : List TwitterOp} (h : popMin l = none) : l = [] := by
  cases l with
  | nil => rfl
  | cons o rest =>
    rw [popMin] at h
    rcases hr : popMin rest with _ | ⟨m, rest'⟩ <;> rw [hr] at h
    · exact absurd h (by simp)
    · by_cases hle : o.renewal_time ≤ m.renewal_time <;> simp [hle] at h

theorem popMin_length {l rest : List TwitterOp} {op : TwitterOp}
    (h : popMin l = some (op, rest)) : l.length = rest.length + 1 := by
  induction l generalizing op rest with
  | nil => simp [popMin] at h
  | cons o tl ih =>
    rw [popMin] at h
    rcases hr : popMin tl with _ | ⟨m, tl'⟩ <;> rw [hr] at h
    · have : tl = [] := popMin_eq_none hr
      subst this
      simp at h
      simp [h.2]
    · by_cases hle : o.renewal_time ≤ m.renewal_time <;> simp [hle] at h
      · simp [h.2]
      · obtain ⟨h1, h2⟩ := h
        have := ih hr
        rw [← h2]
        simp [this]

theorem droppedCount_append {α : Type} (oracle : Nat → InvokeOutcome α)
    (a b : List Event) :
    droppedCount oracle (a ++ b) = droppedCount oracle a + droppedCount oracle b :=
  List.countP_append _ _ _

theorem droppedCount_sleep_if {α : Type} (oracle : Nat → InvokeOutcome α)
    (c : Prop) [Decidable c] (d : ℚ) :
    droppedCount oracle (if c then [Event.sleep d] else []) = 0 := by
  split <;> simp [droppedCount]

theorem droppedCount_invoke {α : Type} (oracle : Nat → InvokeOutcome α) (u : Nat) :
    droppedCount oracle [Event.invoke u]
      = if (oracle u).isOtherErr then 1 else 0 := by
  simp [droppedCount, List.countP_cons]

theorem droppedCount_cons_invoke {α : Type} (oracle : Nat → InvokeOutcome α)
    (u : Nat) (evs : List Event) :
    droppedCount oracle (Event.invoke u :: evs)
      = droppedCount oracle evs + if (oracle u).isOtherErr then 1 else 0 := by
  simp [droppedCount, List.countP_cons]

/-- The heap returned by the trial loop, together with the handles dropped by
unclassified errors, accounts for every handle that entered the loop. -/
theorem trialLoop_heap_length {α : Type} (oracle : Nat → InvokeOutcome α) (e : α) :
    ∀ (iters : Nat) (heap attempted : List TwitterOp) (now : ℚ),
      (trialLoop oracle e iters heap attempted now).heap.length
        + droppedCount oracle (trialLoop oracle e iters heap attempted now).events
        = heap.length + attempted.length := by
  intro iters
  induction iters with
  | zero =>
    intro heap attempted now
    simp [trialLoop, addAll, droppedCount]
  | succ n ih =>
    intro heap attempted now
    rw [trialLoop]
    rcases hpop : popMin heap with _ | ⟨op, rest⟩
    · simp [addAll, droppedCount]
    · have hlen := popMin_length hpop
      have hdc : ∀ evs : List Event,
          droppedCount oracle (sleepEvsFor op now ++ evs) = droppedCount oracle evs := by
        intro evs
        rw [sleepEvsFor, droppedCount_append, droppedCount_sleep_if, Nat.zero_add]
      rcases hout : oracle op.uid with r | ⟨ex, rem, reset⟩
      · simp [hdc, droppedCount_invoke, hout, InvokeOutcome.isOtherErr, addAll]
        omega
      · by_cases hna : not_authorized_error ex = true
        · simp [hna, hdc, droppedCount_invoke, hout, InvokeOutcome.isOtherErr, addAll]
          omega
        · by_cases hrl : rate_limit_error ex = true
          · have h2 := ih rest (attempted ++ [resetRenewalTime op rem reset])
              (afterWait op now)
            simp only [List.length_append, List.length_singleton] at h2
            simp [hna, hrl, hdc, droppedCount_append, droppedCount_invoke,
                  droppedCount_cons_invoke, hout, InvokeOutcome.isOtherErr, addAll]
            omega
          · have h2 := ih rest attempted (afterWait op now)
            simp [hna, hrl, hdc, droppedCount_append, droppedCount_invoke,
                  droppedCount_cons_invoke, hout, InvokeOutcome.isOtherErr, addAll]
            omega

theorem droppedCount_staggerEvents {α : Type} (oracle : Nat → InvokeOutcome α)
    (fn : OpKind) (st : ClientState) :
    droppedCount oracle (staggerEvents fn st) = 0 := by
  rw [staggerEvents]
  exact droppedCount_sleep_if oracle _ _

/-- C1: The claim that a `_parallel_call` always restores the queue to its
entry size fails on the source: a handle whose invocation raises a
`TwitterError` that is neither not-authorized nor rate-limited is never
appended to `attempted_keys` (line 96), so it is not pushed back and the
queue shrinks.  This run pops handle 0, loses it to an unclassified error,
then succeeds with handle 1: the queue goes from two handles to one. -/
theorem claim1_counterexample :
    ((parallelCall OpKind.getFriendIDs
        (fun u => if u = 0
          then InvokeOutcome.err ⟨TwMessage.str "Rate limit exceeded"⟩ 1 0
          else InvokeOutcome.ok ([42] : List Nat))
        []
        { operators := fun _ => [⟨0, 0⟩, ⟨1, 0⟩],
          last_call := 0, n_requests := 0, now := 100 }).state.operators
        OpKind.getFriendIDs).length
      ≠ (([⟨0, 0⟩, ⟨1, 0⟩] : List TwitterOp)).length := by
  decide

/-- C1 (amended): across one `_parallel_call`, every handle popped from the
operation kind's queue is pushed back exactly once — except handles whose
invocation failed with an unclassified error (neither not-authorized nor
rate-limited), which are dropped.  Hence the queue size after the call equals
its size before minus the number of such dropped handles; in particular the
size is unchanged exactly when no unclassified error occurred. -/
theorem claim1_amended {α : Type} (fn : OpKind) (oracle : Nat → InvokeOutcome α)
    (emptyRes : α) (st : ClientState) :
    ((parallelCall fn oracle emptyRes st).state.operators fn).length
      + droppedCount oracle (parallelCall fn oracle emptyRes st).events
      = (st.operators fn).length := by
  rw [parallelCall]
  by_cases h : (st.operators fn).length = 0
  · simp [h, droppedCount]
  · simp only [h, if_false, if_neg h]
    simp [Function.update_same, droppedCount_append, droppedCount_staggerEvents,
          trialLoop_heap_length]

/-- C3: with zero registered handles for an operation kind, `_parallel_call`
raises `ZeroDivisionError` while computing the stagger spacing
`60 / len(self.operators[fn])` — before touching the queue, the stagger
clock, the request counter, or any credential — instead of the
`OutOfKeysError` its own docstring promises for the no-valid-keys case. -/
theorem claim3_zero_division {α : Type} (fn : OpKind) (oracle : Nat → InvokeOutcome α)
    (emptyRes : α) (st : ClientState) (h : st.operators fn = []) :
    (parallelCall fn oracle emptyRes st).result = .error .zeroDivision
    ∧ (parallelCall fn oracle emptyRes st).result ≠ .error .outOfKeys
    ∧ (parallelCall fn oracle emptyRes st).events = []
    ∧ (parallelCall fn oracle emptyRes st).state = st := by
  rw [parallelCall]
  simp [h]

/-! ### Unfolding equations for the trial loop, one per error classification -/

theorem trialLoop_succ_ok {α : Type} {oracle : Nat → InvokeOutcome α} {e : α}
    {n : Nat} {heap attempted rest : List TwitterOp} {now : ℚ} {op : TwitterOp} {r : α}
    (hpop : popMin heap = some (op, rest)) (hout : oracle op.uid = .ok r) :
    trialLoop oracle e (n + 1) heap attempted now
      = ⟨.ok r, addAll (attempted ++ [op]) rest, afterWait op now,
         sleepEvsFor op now ++ [Event.invoke op.uid]⟩ := by
  rw [trialLoop, hpop]
  simp only [hout]

theorem trialLoop_succ_notAuth {α : Type} {oracle : Nat → InvokeOutcome α} {e : α}
    {n : Nat} {heap attempted rest : List TwitterOp} {now : ℚ} {op : TwitterOp}
    {ex : TwitterError} {rem : Nat} {reset : ℚ}
    (hpop : popMin heap = some (op, rest))
    (hout : oracle op.uid = .err ex rem reset)
    (hna : not_authorized_error ex = true) :
    trialLoop oracle e (n + 1) heap attempted now
      = ⟨.ok e, addAll (attempted ++ [resetRenewalTime op rem reset]) rest,
         afterWait op now, sleepEvsFor op now ++ [Event.invoke op.uid]⟩ := by
  rw [trialLoop, hpop]
  simp only [hout, hna, Bool.true_or, if_true]

theorem trialLoop_succ_rate {α : Type} {oracle : Nat → InvokeOutcome α} {e : α}
    {n : Nat} {heap attempted rest : List TwitterOp} {now : ℚ} {op : TwitterOp}
    {ex : TwitterError} {rem : Nat} {reset : ℚ}
    (hpop : popMin heap = some (op, rest))
    (hout : oracle op.uid = .err ex rem reset)
    (hna : not_authorized_error ex = false)
    (hrl : rate_limit_error ex = true) :
    trialLoop oracle e (n + 1) heap attempted now
      = ⟨(trialLoop oracle e n rest (attempted ++ [resetRenewalTime op rem reset])
            (afterWait op now)).result,
         (trialLoop oracle e n rest (attempted ++ [resetRenewalTime op rem reset])
            (afterWait op now)).heap,
         (trialLoop oracle e n rest (attempted ++ [resetRenewalTime op rem reset])
            (afterWait op now)).now,
         sleepEvsFor op now ++ [Event.invoke op.uid]
           ++ (trialLoop oracle e n rest (attempted ++ [resetRenewalTime op rem reset])
                 (afterWait op now)).events⟩ := by
  rw [trialLoop, hpop]
  simp only [hout, hna, hrl, Bool.false_or, if_true, Bool.false_eq_true, if_false]

theorem trialLoop_succ_other {α : Type} {oracle : Nat → InvokeOutcome α} {e : α}
    {n : Nat} {heap attempted rest : List TwitterOp} {now : ℚ} {op : TwitterOp}
    {ex : TwitterError} {rem : Nat} {reset : ℚ}
    (hpop : popMin heap = some (op, rest))
    (hout : oracle op.uid = .err ex rem reset)
    (hna : not_authorized_error ex = false)
    (hrl : rate_limit_error ex = false) :
    trialLoop oracle e (n + 1) heap attempted now
      = ⟨(trialLoop oracle e n rest attempted (afterWait op now)).result,
         (trialLoop oracle e n rest attempted (afterWait op now)).heap,
         (trialLoop oracle e n rest attempted (afterWait op now)).now,
         sleepEvsFor op now ++ [Event.invoke op.uid]
           ++ (trialLoop oracle e n rest attempted (afterWait op now)).events⟩ := by
  rw [trialLoop, hpop]
  simp only [hout, hna, hrl, Bool.or_self, Bool.false_eq_true, if_false]

/-! ### The not-authorized short-circuit (claim C2) -/

/-- Not-authorized and rate-limited are mutually exclusive classifications:
the former requires a string message, the latter a list-of-codes message. -/
theorem notAuth_excludes_rateLimit {ex : TwitterError}
    (h : not_authorized_error ex = true) : rate_limit_error ex = false := by
  rcases hm : ex.message with s | l
  · rw [rate_limit_error, hm]
  · rw [not_authorized_error, hm] at h
    exact absurd h (by simp)

theorem resetRenewalTime_uid (op : TwitterOp) (rem : Nat) (reset : ℚ) :
    (resetRenewalTime op rem reset).uid = op.uid := by
  rw [resetRenewalTime]
  split <;> rfl

theorem uids_addAll (lst heap : List TwitterOp) :
    uids (addAll lst heap) = uids heap ++ uids lst := by
  simp [uids, addAll]

theorem uid_mem_uids_append (attempted : List TwitterOp) (op' : TwitterOp) :
    op'.uid ∈ uids (attempted ++ [op']) := by
  rw [uids, List.map_append]
  exact List.mem_append.2 (Or.inr (by simp))

theorem uid_mem_uids_addAll (attempted rest : List TwitterOp) (op' : TwitterOp) :
    op'.uid ∈ uids (addAll (attempted ++ [op']) rest) := by
  rw [uids_addAll]
  exact List.mem_append.2 (Or.inr (uid_mem_uids_append attempted op'))

/-- Membership in a sleep-prefixed event list. -/
theorem mem_sleepEvsFor_append {e : Event} {op : TwitterOp} {now : ℚ}
    {l : List Event} (h : e ∈ sleepEvsFor op now ++ l) :
    e = Event.sleep (op.renewal_time - now + 1) ∨ e ∈ l := by
  rcases List.mem_append.1 h with h | h
  · rw [sleepEvsFor] at h
    split at h
    · simp at h
      exact Or.inl h
    · simp at h
  · exact Or.inr h

/-- Behaviour of the trial loop when some invoked credential hits a
not-authorized error: the loop returns the empty result with that invocation
as its very last event, and the failing handle, every handle in
`attempted_keys`, and every handle that failed rate-limited are back on the
queue.  (Handles lost to unclassified errors are not mentioned: they are
dropped, which is what refutes the claim as literally stated.) -/
theorem trialLoop_notAuth_spec {α : Type} (oracle : Nat → InvokeOutcome α) (e : α) :
    ∀ (iters : Nat) (heap attempted : List TwitterOp) (now : ℚ) (v : Nat),
      Event.invoke v ∈ (trialLoop oracle e iters heap attempted now).events →
      (oracle v).isNotAuth = true →
      (trialLoop oracle e iters heap attempted now).result = .ok e
      ∧ v ∈ uids (trialLoop oracle e iters heap attempted now).heap
      ∧ (∀ u, u ∈ uids attempted →
            u ∈ uids (trialLoop oracle e iters heap attempted now).heap)
      ∧ (∀ w, Event.invoke w ∈ (trialLoop oracle e iters heap attempted now).events →
            (oracle w).isRateLimited = true →
            w ∈ uids (trialLoop oracle e iters heap attempted now).heap)
      ∧ ∃ pre, (trialLoop oracle e iters heap attempted now).events
            = pre ++ [Event.invoke v] := by
  intro iters
  induction iters with
  | zero =>
    intro heap attempted now v hmem hvNA
    simp [trialLoop] at hmem
  | succ n ih =>
    intro heap attempted now v hmem hvNA
    rcases hpop : popMin heap with _ | ⟨op, rest⟩
    · rw [trialLoop, hpop] at hmem
      simp at hmem
    · rcases hout : oracle op.uid with r | ⟨ex, rem, reset⟩
      · rw [trialLoop_succ_ok hpop hout] at hmem
        rcases mem_sleepEvsFor_append hmem with h | h
        · exact absurd h (by simp)
        · simp at h
          rw [h, hout] at hvNA
          exact absurd hvNA (by simp [InvokeOutcome.isNotAuth])
      · by_cases hna : not_authorized_error ex = true
        · rw [trialLoop_succ_notAuth hpop hout hna] at hmem
          rw [trialLoop_succ_notAuth hpop hout hna]
          have hvop : v = op.uid := by
            rcases mem_sleepEvsFor_append hmem with h | h
            · exact absurd h (by simp)
            · simpa using h
          have hvmem : v ∈ uids (addAll (attempted ++ [resetRenewalTime op rem reset]) rest) := by
            have := uid_mem_uids_addAll attempted rest (resetRenewalTime op rem reset)
            rw [resetRenewalTime_uid] at this
            rw [hvop]
            exact this
          refine ⟨rfl, hvmem, ?_, ?_, ⟨sleepEvsFor op now, by rw [hvop]⟩⟩
          · intro u hu
            simp only [uids_addAll]
            simp only [uids] at hu ⊢
            simp [hu]
          · intro w hw _
            have hwop : w = op.uid := by
              rcases mem_sleepEvsFor_append hw with h | h
              · exact absurd h (by simp)
              · simpa using h
            have := uid_mem_uids_addAll attempted rest (resetRenewalTime op rem reset)
            rw [resetRenewalTime_uid] at this
            rw [hwop]
            exact this
        · rw [Bool.not_eq_true] at hna
          by_cases hrl : rate_limit_error ex = true
          · rw [trialLoop_succ_rate hpop hout hna hrl] at hmem
            rw [trialLoop_succ_rate hpop hout hna hrl]
            have hvrec : Event.invoke v ∈ (trialLoop oracle e n rest
                (attempted ++ [resetRenewalTime op rem reset]) (afterWait op now)).events := by
              rcases List.mem_append.1 hmem with h | h
              · rcases mem_sleepEvsFor_append h with h' | h'
                · exact absurd h' (by simp)
                · simp at h'
                  rw [h', hout] at hvNA
                  rw [InvokeOutcome.isNotAuth] at hvNA
                  exact absurd hvNA (by simp [hna])
              · exact h
            obtain ⟨ih1, ih2, ih3, ih4, pre', ih5⟩ :=
              ih rest (attempted ++ [resetRenewalTime op rem reset])
                (afterWait op now) v hvrec hvNA
            refine ⟨ih1, ih2, ?_, ?_, ?_⟩
            · intro u hu
              refine ih3 u ?_
              simp only [uids, List.map_append] at hu ⊢
              simp [hu]
            · intro w hw hwrate
              rcases List.mem_append.1 hw with h | h
              · rcases mem_sleepEvsFor_append h with h' | h'
                · exact absurd h' (by simp)
                · have hwop : w = op.uid := by simpa using h'
                  rw [hwop]
                  refine ih3 op.uid ?_
                  have := uid_mem_uids_append attempted (resetRenewalTime op rem reset)
                  rw [resetRenewalTime_uid] at this
                  exact this
              · exact ih4 w h hwrate
            · exact ⟨sleepEvsFor op now ++ [Event.invoke op.uid] ++ pre', by
                simp [ih5]⟩
          · rw [Bool.not_eq_true] at hrl
            rw [trialLoop_succ_other hpop hout hna hrl] at hmem
            rw [trialLoop_succ_other hpop hout hna hrl]
            have hvrec : Event.invoke v ∈ (trialLoop oracle e n rest
                attempted (afterWait op now)).events := by
              rcases List.mem_append.1 hmem with h | h
              · rcases mem_sleepEvsFor_append h with h' | h'
                · exact absurd h' (by simp)
                · simp at h'
                  rw [h', hout] at hvNA
                  rw [InvokeOutcome.isNotAuth] at hvNA
                  exact absurd hvNA (by simp [hna])
              · exact h
            obtain ⟨ih1, ih2, ih3, ih4, pre', ih5⟩ :=
              ih rest attempted (afterWait op now) v hvrec hvNA
            refine ⟨ih1, ih2, ih3, ?_, ?_⟩
            · intro w hw hwrate
              rcases List.mem_append.1 hw with h | h
              · rcases mem_sleepEvsFor_append h with h' | h'
                · exact absurd h' (by simp)
                · have hwop : w = op.uid := by simpa using h'
                  rw [hwop, hout] at hwrate
                  rw [InvokeOutcome.isRateLimited] at hwrate
                  exact absurd hwrate (by simp [hrl])
              · exact ih4 w h hwrate
            · exact ⟨sleepEvsFor op now ++ [Event.invoke op.uid] ++ pre', by
                simp [ih5]⟩

/-- Invoke events never occur among the stagger-step sleeps. -/
theorem invoke_not_mem_staggerEvents {v : Nat} {fn : OpKind} {st : ClientState}
    (h : Event.invoke v ∈ staggerEvents fn st) : False := by
  rw [staggerEvents] at h
  split at h <;> simp at h

/-- C2: as literally stated the claim fails: a handle tried earlier in the
same call that failed with an unclassified error (neither not-authorized nor
rate-limited) is not in `attempted_keys` and is not requeued when a later
credential hits the not-authorized short-circuit.  Here handle 0 fails with
the unclassified `Rate limit exceeded` string error, handle 1 is
not-authorized: the call does return the empty result, but the
previously-tried handle 0 is gone from the queue. -/
theorem claim2_counterexample :
    (parallelCall OpKind.getFriendIDs
        (fun u => if u = 0
          then InvokeOutcome.err ⟨TwMessage.str "Rate limit exceeded"⟩ 1 0
          else InvokeOutcome.err ⟨TwMessage.str "Not authorized."⟩ 15 0)
        ([] : List Nat)
        { operators := fun _ => [⟨0, 0⟩, ⟨1, 0⟩],
          last_call := 0, n_requests := 0, now := 100 }).result = .ok []
    ∧ Event.invoke 0 ∈ (parallelCall OpKind.getFriendIDs
        (fun u => if u = 0
          then InvokeOutcome.err ⟨TwMessage.str "Rate limit exceeded"⟩ 1 0
          else InvokeOutcome.err ⟨TwMessage.str "Not authorized."⟩ 15 0)
        ([] : List Nat)
        { operators := fun _ => [⟨0, 0⟩, ⟨1, 0⟩],
          last_call := 0, n_requests := 0, now := 100 }).events
    ∧ 0 ∉ uids ((parallelCall OpKind.getFriendIDs
        (fun u => if u = 0
          then InvokeOutcome.err ⟨TwMessage.str "Rate limit exceeded"⟩ 1 0
          else InvokeOutcome.err ⟨TwMessage.str "Not authorized."⟩ 15 0)
        ([] : List Nat)
        { operators := fun _ => [⟨0, 0⟩, ⟨1, 0⟩],
          last_call := 0, n_requests := 0, now := 100 }).state.operators
        OpKind.getFriendIDs) := by
  refine ⟨?_, ?_, ?_⟩ <;>
    norm_num [parallelCall, staggerEvents, staggeredNow, staggerRate, trialLoop,
      popMin, addAll, sleepEvsFor, afterWait, resetRenewalTime, reqs_per_minute,
      uids, Function.update, not_authorized_error, rate_limit_error,
      (by decide : ¬("Rate limit exceeded" = "Not authorized."))]

/-- C2 (amended): if during a `_parallel_call` the credential currently tried
fails with a not-authorized error, the call requeues that handle and every
handle held in `attempted_keys` — i.e. every previously rate-limited handle,
though not handles previously lost to unclassified errors — and returns the
designated empty result immediately: the not-authorized invocation is the
last event of the call. -/
theorem claim2_amended {α : Type} (fn : OpKind) (oracle : Nat → InvokeOutcome α)
    (emptyRes : α) (st : ClientState) (v : Nat)
    (hmem : Event.invoke v ∈ (parallelCall fn oracle emptyRes st).events)
    (hvNA : (oracle v).isNotAuth = true) :
    (parallelCall fn oracle emptyRes st).result = .ok emptyRes
    ∧ v ∈ uids ((parallelCall fn oracle emptyRes st).state.operators fn)
    ∧ (∀ w, Event.invoke w ∈ (parallelCall fn oracle emptyRes st).events →
          (oracle w).isRateLimited = true →
          w ∈ uids ((parallelCall fn oracle emptyRes st).state.operators fn))
    ∧ ∃ pre, (parallelCall fn oracle emptyRes st).events = pre ++ [Event.invoke v] := by
  by_cases h0 : (st.operators fn).length = 0
  · rw [parallelCall] at hmem
    simp [h0] at hmem
  · rw [parallelCall] at hmem ⊢
    simp only [h0, if_false] at hmem ⊢
    have hloop : Event.invoke v ∈ (trialLoop oracle emptyRes (st.operators fn).length
        (st.operators fn) [] (staggeredNow fn st)).events := by
      rcases List.mem_append.1 hmem with h | h
      · exact absurd h invoke_not_mem_staggerEvents
      · exact h
    obtain ⟨s1, s2, _, s4, pre', s5⟩ :=
      trialLoop_notAuth_spec oracle emptyRes (st.operators fn).length
        (st.operators fn) [] (staggeredNow fn st) v hloop hvNA
    refine ⟨s1, ?_, ?_, ?_⟩
    · simpa [Function.update_same] using s2
    · intro w hw hwrate
      have hwloop : Event.invoke w ∈ (trialLoop oracle emptyRes (st.operators fn).length
          (st.operators fn) [] (staggeredNow fn st)).events := by
        rcases List.mem_append.1 hw with h | h
        · exact absurd h invoke_not_mem_staggerEvents
        · exact h
      simpa [Function.update_same] using s4 w hwloop hwrate
    · exact ⟨staggerEvents fn st ++ pre', by simp [s5]⟩

theorem claim2_witness :
    (parallelCall OpKind.getFriendIDs
        (fun _ => InvokeOutcome.err ⟨TwMessage.str "Not authorized."⟩ 15 0)
        ([] : List Nat)
        { operators := fun _ => [⟨0, 0⟩],
          last_call := 0, n_requests := 0, now := 100 }).result = .ok []
    ∧ 0 ∈ uids ((parallelCall OpKind.getFriendIDs
        (fun _ => InvokeOutcome.err ⟨TwMessage.str "Not authorized."⟩ 15 0)
        ([] : List Nat)
        { operators := fun _ => [⟨0, 0⟩],
          last_call := 0, n_requests := 0, now := 100 }).state.operators
        OpKind.getFriendIDs) :=
  ⟨(claim2_amended OpKind.getFriendIDs
      (fun _ => InvokeOutcome.err ⟨TwMessage.str "Not authorized."⟩ 15 0)
      ([] : List Nat)
      { operators := fun _ => [⟨0, 0⟩], last_call := 0, n_requests := 0, now := 100 }
      0 (by norm_num [parallelCall, staggerEvents, staggeredNow, staggerRate, trialLoop,
            popMin, addAll, sleepEvsFor, afterWait, resetRenewalTime, reqs_per_minute,
            not_authorized_error])
        (by decide)).1,
   (claim2_amended OpKind.getFriendIDs
      (fun _ => InvokeOutcome.err ⟨TwMessage.str "Not authorized."⟩ 15 0)
      ([] : List Nat)
      { operators := fun _ => [⟨0, 0⟩], last_call := 0, n_requests := 0, now := 100 }
      0 (by norm_num [parallelCall, staggerEvents, staggeredNow, staggerRate, trialLoop,
            popMin, addAll, sleepEvsFor, afterWait, resetRenewalTime, reqs_per_minute,
            not_authorized_error])
        (by decide)).2.1⟩

theorem claim3_witness :
    (parallelCall OpKind.getFriendIDs (fun _ => InvokeOutcome.ok ([] : List Nat)) []
        { operators := fun _ => [], last_call := 0, n_requests := 0, now := 0 }).result
      = .error .zeroDivision
    ∧ (parallelCall OpKind.getFriendIDs (fun _ => InvokeOutcome.ok ([] : List Nat)) []
        { operators := fun _ => [], last_call := 0, n_requests := 0, now := 0 }).result
      ≠ .error .outOfKeys
    ∧ (parallelCall OpKind.getFriendIDs (fun _ => InvokeOutcome.ok ([] : List Nat)) []
        { operators := fun _ => [], last_call := 0, n_requests := 0, now := 0 }).events
      = []
    ∧ (parallelCall OpKind.getFriendIDs (fun _ => InvokeOutcome.ok ([] : List Nat)) []
        { operators := fun _ => [], last_call := 0, n_requests := 0, now := 0 }).state
      = { operators := fun _ => [], last_call := 0, n_requests := 0, now := 0 } :=
  claim3_zero_division OpKind.getFriendIDs _ _ _ rfl

/-! ### Claims C4 and C5 — waiting behaviour of `_parallel_call` -/

/-- Whatever the outcome of the first credential, the trial loop's first two
observable steps are the renewal-time wait (if any) and the invocation of the
popped handle. -/
theorem trialLoop_events_head {α : Type} {oracle : Nat → InvokeOutcome α} {e : α}
    {n : Nat} {heap attempted rest : List TwitterOp} {now : ℚ} {op : TwitterOp}
    (hpop : popMin heap = some (op, rest)) :
    ∃ tail, (trialLoop oracle e (n + 1) heap attempted now).events
      = sleepEvsFor op now ++ Event.invoke op.uid :: tail := by
  rcases hout : oracle op.uid with r | ⟨ex, rem, reset⟩
  · exact ⟨[], by rw [trialLoop_succ_ok hpop hout]⟩
  · by_cases hna : not_authorized_error ex = true
    · exact ⟨[], by rw [trialLoop_succ_notAuth hpop hout hna]⟩
    · rw [Bool.not_eq_true] at hna
      by_cases hrl : rate_limit_error ex = true
      · refine ⟨(trialLoop oracle e n rest (attempted ++ [resetRenewalTime op rem reset])
            (afterWait op now)).events, ?_⟩
        rw [trialLoop_succ_rate hpop hout hna hrl]
        simp
      · rw [Bool.not_eq_true] at hrl
        refine ⟨(trialLoop oracle e n rest attempted (afterWait op now)).events, ?_⟩
        rw [trialLoop_succ_other hpop hout hna hrl]
        simp

/-- C4: if the soonest-available handle's renewal time is `k > 0` seconds in
the future at the moment it is popped (i.e. right after the stagger step),
`_parallel_call` sleeps exactly `k + 1` seconds — the pessimistic one-second
buffer past the renewal time — immediately before invoking that credential. -/
theorem claim4_renewal_wait {α : Type} (fn : OpKind) (oracle : Nat → InvokeOutcome α)
    (emptyRes : α) (st : ClientState) (op : TwitterOp) (rest : List TwitterOp) (k : ℚ)
    (hpop : popMin (st.operators fn) = some (op, rest))
    (hren : op.renewal_time = staggeredNow fn st + k)
    (hk : 0 < k) :
    ∃ tail, (parallelCall fn oracle emptyRes st).events
      = staggerEvents fn st ++ Event.sleep (k + 1) :: Event.invoke op.uid :: tail := by
  have hne : ¬((st.operators fn).length = 0) := by
    intro h
    rw [List.length_eq_zero] at h
    rw [h] at hpop
    exact absurd hpop (by rw [popMin]; simp)
  have hcond : staggeredNow fn st < op.renewal_time := by
    rw [hren]
    linarith
  have hamount : op.renewal_time - staggeredNow fn st + 1 = k + 1 := by
    rw [hren]
    ring
  have hsleep : sleepEvsFor op (staggeredNow fn st) = [Event.sleep (k + 1)] := by
    rw [sleepEvsFor, if_pos hcond, hamount]
  have hlen : (st.operators fn).length = rest.length + 1 := popMin_length hpop
  obtain ⟨tail, htail⟩ := @trialLoop_events_head α oracle emptyRes rest.length
    (st.operators fn) [] rest (staggeredNow fn st) op hpop
  refine ⟨tail, ?_⟩
  rw [parallelCall, if_neg hne]
  simp only [hlen, htail, hsleep, List.singleton_append]

/-- C5: when the time elapsed since the shared `last_call` clock is below the
stagger spacing `60 / (n * rpm)` (with `n` the number of handles registered
for the operation kind and `rpm` its per-credential request rate),
`_parallel_call` first sleeps exactly the remainder of the spacing, then
stores the post-sleep clock into the shared `last_call`; the queues of every
other operation kind are untouched (the clock, not the queues, is what the
kinds share). -/
theorem claim5_stagger {α : Type} (fn : OpKind) (oracle : Nat → InvokeOutcome α)
    (emptyRes : α) (st : ClientState)
    (hne : st.operators fn ≠ [])
    (hlt : st.now - st.last_call
        < 60 / (((st.operators fn).length : ℚ) * reqs_per_minute fn)) :
    ((parallelCall fn oracle emptyRes st).events).head?
      = some (Event.sleep (60 / (((st.operators fn).length : ℚ) * reqs_per_minute fn)
          - (st.now - st.last_call)))
    ∧ (parallelCall fn oracle emptyRes st).state.last_call
      = st.now + (60 / (((st.operators fn).length : ℚ) * reqs_per_minute fn)
          - (st.now - st.last_call))
    ∧ ∀ g, g ≠ fn →
        (parallelCall fn oracle emptyRes st).state.operators g = st.operators g := by
  have hdiv : staggerRate fn st
      = 60 / (((st.operators fn).length : ℚ) * reqs_per_minute fn) := by
    rw [staggerRate, div_div]
  have hlt' : st.now - st.last_call < staggerRate fn st := by
    rw [hdiv]
    exact hlt
  have hn0 : ¬((st.operators fn).length = 0) := by
    intro h
    exact hne (List.length_eq_zero.1 h)
  rw [parallelCall, if_neg hn0]
  refine ⟨?_, ?_, ?_⟩
  · simp only [staggerEvents, hdiv]
    rw [if_pos hlt]
    simp
  · simp only [staggeredNow, hdiv]
    rw [if_pos hlt]
  · intro g hg
    simp only [Function.update_noteq hg]

theorem claim4_witness :
    ∃ tail, (parallelCall OpKind.getFriendIDs
        (fun _ => InvokeOutcome.ok ([42] : List Nat)) []
        { operators := fun _ => [⟨0, 100⟩],
          last_call := 0, n_requests := 0, now := 50 }).events
      = staggerEvents OpKind.getFriendIDs
          { operators := fun _ => [⟨0, 100⟩],
            last_call := 0, n_requests := 0, now := 50 }
        ++ Event.sleep (40 + 1) :: Event.invoke 0 :: tail :=
  claim4_renewal_wait OpKind.getFriendIDs _ _ _ ⟨0, 100⟩ [] 40
    (by rw [popMin, popMin])
    (by norm_num [staggeredNow, staggerRate, reqs_per_minute])
    (by norm_num)

theorem claim5_witness :
    ((parallelCall OpKind.getFriendIDs
        (fun _ => InvokeOutcome.ok ([42] : List Nat)) []
        { operators := fun _ => [⟨0, 0⟩],
          last_call := 0, n_requests := 0, now := 10 }).events).head?
      = some (Event.sleep (60 / (((1 : Nat) : ℚ) * 1) - ((10 : ℚ) - 0)))
    ∧ (parallelCall OpKind.getFriendIDs
        (fun _ => InvokeOutcome.ok ([42] : List Nat)) []
        { operators := fun _ => [⟨0, 0⟩],
          last_call := 0, n_requests := 0, now := 10 }).state.operators
        OpKind.usersLookup
      = [⟨0, 0⟩] := by
  have h := claim5_stagger OpKind.getFriendIDs
    (fun _ => InvokeOutcome.ok ([42] : List Nat)) []
    { operators := fun _ => [⟨0, 0⟩], last_call := 0, n_requests := 0, now := 10 }
    (by simp)
    (by norm_num [reqs_per_minute])
  refine ⟨?_, ?_⟩
  · have h1 := h.1
    simpa [reqs_per_minute] using h1
  · exact h.2.2 OpKind.usersLookup (by decide)

/-! ### users_lookup (claim C6) -/

/-- The slice `user_ids[100 * i : 100 * (i + 1)]` taken by iteration `i` of
`users_lookup`. -/
def chunkAt (ids : List Nat) (i : Nat) : List Nat :=
  (ids.drop (100 * i)).take 100

/-- Translation of `ParallelTwitterClient.users_lookup`, parameterised by the
scheduler call `self._parallel_call(UsersLookup, chunk)` (abstracted as a
function of the chunk, which is all the loop passes to it).  Returns the
accumulated users and, for observability, the list of chunks handed to the
scheduler in call order.  As in the source, an empty id list returns
immediately and otherwise the loop runs `(len(user_ids) - 1) // 100 + 1`
times over contiguous 100-id slices. -/
def users_lookup {α : Type} (call : List Nat → List α) (user_ids : List Nat) :
    List α × List (List Nat) :=
  if user_ids.length = 0 then ([], [])
  else
    (List.range ((user_ids.length - 1) / 100 + 1)).foldl
      (fun acc i => (acc.1 ++ call (chunkAt user_ids i), acc.2 ++ [chunkAt user_ids i]))
      ([], [])

/-- The identity scheduler call, used to instantiate `users_lookup` on
concrete inputs. -/
def idCall : List Nat → List Nat := fun l => l

theorem users_lookup_foldl {α : Type} (call : List Nat → List α) (ids : List Nat) :
    ∀ (l : List Nat) (a : List α) (b : List (List Nat)),
    l.foldl (fun acc i => (acc.1 ++ call (chunkAt ids i), acc.2 ++ [chunkAt ids i])) (a, b)
      = (a ++ ((l.map (fun i => chunkAt ids i)).map call).flatten,
         b ++ l.map (chunkAt ids)) := by
  intro l
  induction l with
  | nil =>
    intro a b
    simp
  | cons x xs ih =>
    intro a b
    rw [List.foldl_cons, ih]
    simp

/-- Concatenating the consecutive 100-id chunks of a list recovers the list,
as soon as the chunk count covers its length. -/
theorem join_chunks : ∀ (n : Nat) (l : List Nat), l.length ≤ 100 * n →
    ((List.range n).map (chunkAt l)).flatten = l := by
  intro n
  induction n with
  | zero =>
    intro l h
    simp at h
    simp [h]
  | succ m ih =>
    intro l h
    rw [List.range_succ_eq_map]
    rw [List.map_cons, List.map_map, List.flatten_cons]
    have h1 : chunkAt l 0 = l.take 100 := by
      simp [chunkAt]
    have h2 : (List.range m).map (chunkAt l ∘ Nat.succ)
        = (List.range m).map (chunkAt (l.drop 100)) := by
      refine List.map_congr_left ?_
      intro i _
      show chunkAt l (i + 1) = chunkAt (l.drop 100) i
      rw [chunkAt, chunkAt, List.drop_drop]
      have h100 : 100 * (i + 1) = 100 + 100 * i := by ring
      rw [h100]
    rw [h1, h2, ih (l.drop 100) (by simp; omega)]
    exact List.take_append_drop 100 l

/-- C6: `users_lookup` on an empty id list returns the empty result with zero
scheduler calls; on a non-empty list of `k` ids it issues exactly
`ceil(k / 100)` scheduler calls, each on a non-empty contiguous chunk of at
most 100 ids whose concatenation in call order is the input list, and it
returns the concatenation of the per-chunk results in chunk order; on 150
ids, exactly two calls are made, of 100 and of 50 ids. -/
theorem claim6_users_lookup :
    (∀ (α : Type) (call : List Nat → List α), users_lookup call [] = ([], []))
    ∧ (∀ (α : Type) (call : List Nat → List α) (ids : List Nat), ids ≠ [] →
        (users_lookup call ids).2.length = (ids.length + 99) / 100
        ∧ (users_lookup call ids).2.flatten = ids
        ∧ (∀ c ∈ (users_lookup call ids).2, c.length ≤ 100 ∧ c ≠ [])
        ∧ (users_lookup call ids).1 = ((users_lookup call ids).2.map call).flatten)
    ∧ (users_lookup idCall (List.range 150)).2.map List.length = [100, 50] := by
  have h150 : (users_lookup idCall (List.range 150)).2.map List.length = [100, 50] := by
    rw [users_lookup]
    norm_num
    rw [show List.range 2 = [0, 1] by rfl]
    simp [chunkAt, List.length_take, List.length_drop, List.length_range]
  refine ⟨?_, ?_, ?_⟩
  · intro α call
    rw [users_lookup]
    simp
  · intro α call ids hne
    have hlen : ids.length ≠ 0 := by
      simpa [List.length_eq_zero] using hne
    have hcover : ids.length ≤ 100 * ((ids.length - 1) / 100 + 1) := by
      omega
    have hul : users_lookup call ids
        = (((((List.range ((ids.length - 1) / 100 + 1)).map
              (fun i => chunkAt ids i)).map call).flatten),
           (List.range ((ids.length - 1) / 100 + 1)).map (chunkAt ids)) := by
      rw [users_lookup, if_neg hlen, users_lookup_foldl]
      simp
    refine ⟨?_, ?_, ?_, ?_⟩
    · rw [hul]
      simp
      omega
    · rw [hul]
      exact join_chunks _ ids hcover
    · intro c hc
      rw [hul] at hc
      simp only [List.mem_map, List.mem_range] at hc
      obtain ⟨i, hi, hc⟩ := hc
      have hstart : 100 * i < ids.length := by
        have hile : i ≤ (ids.length - 1) / 100 := by omega
        have hdm := Nat.div_mul_le_self (ids.length - 1) 100
        have hmul : 100 * i ≤ 100 * ((ids.length - 1) / 100) :=
          Nat.mul_le_mul_left 100 hile
        omega
      constructor
      · rw [← hc, chunkAt]
        simp [List.length_take]
      · rw [← hc, chunkAt, ← List.length_pos]
        simp
        omega
    · rw [hul]
  · exact h150

theorem claim6_witness :
    (users_lookup idCall [5, 7, 9]).2.flatten = [5, 7, 9]
    ∧ (users_lookup idCall [5, 7, 9]).2.length = 1
    ∧ (users_lookup idCall [5, 7, 9]).1
      = ((users_lookup idCall [5, 7, 9]).2.map idCall).flatten :=
  ⟨(claim6_users_lookup.2.1 Nat idCall [5, 7, 9] (by decide)).2.1,
   (claim6_users_lookup.2.1 Nat idCall [5, 7, 9] (by decide)).1,
   (claim6_users_lookup.2.1 Nat idCall [5, 7, 9] (by decide)).2.2.2⟩

/-! ### get_user_timeline (claim C7) -/

/-- A timeline post: `get_user_timeline` inspects only the `id` attribute of
`twitter.Status`. -/
structure Status where
  id : Nat
deriving DecidableEq

/-- The id of the first post of a page (`current_posts[0].id`; used only
after the page was checked non-empty, as in the source). -/
def headId : List Status → Nat
  | [] => 0
  | p :: _ => p.id

/-- Translation of `min(p.id for p in current_posts)` over a non-empty page. -/
def minId : List Status → Nat
  | [] => 0
  | p :: rest => rest.foldl (fun m q => min m q.id) p.id

/-- Translation of the `while` loop of
`ParallelTwitterClient.get_user_timeline`, parameterised by the scheduler
call as a function of the call index and the watermark `max_id` passed to it
(the index letting the model state which page the scheduler delivers on each
successive call).  `fuel` is the remaining call budget
(`max_requests - calls`); `posts` the accumulator; `max_id` the watermark,
initially `none` (Python `None`, which compares unequal to every id).  Each
iteration returns early on an empty page or a single-post page repeating the
watermark, then drops the one leading post equal to the watermark, advances
the watermark to the page minimum, and accumulates. -/
def timelineLoop (call : Nat → Option Nat → List Status) (min_count : Nat) :
    Nat → Nat → List Status → Option Nat → List Status
  | 0, _, posts, _ => posts
  | fuel + 1, idx, posts, max_id =>
    if min_count ≤ posts.length then posts
    else
      let current := call idx max_id
      if current.length = 0 ∨ (current.length = 1 ∧ some (headId current) = max_id) then
        posts
      else
        let current₂ := if some (headId current) = max_id then current.tail else current
        timelineLoop call min_count fuel (idx + 1) (posts ++ current₂)
          (some (minId current₂))

/-- Translation of `ParallelTwitterClient.get_user_timeline` (entry point:
no posts, no watermark, full `max_requests` budget). -/
def get_user_timeline (call : Nat → Option Nat → List Status)
    (min_count max_requests : Nat) : List Status :=
  timelineLoop call min_count max_requests 0 [] none

/-- The scheduler of the C7 scenario: first call delivers posts 10, 9, 8;
second call delivers posts 8, 7, 6 (8 duplicating the watermark); any
further call would deliver nothing. -/
def twoPages : Nat → Option Nat → List Status :=
  fun i _ =>
    if i = 0 then [⟨10⟩, ⟨9⟩, ⟨8⟩]
    else if i = 1 then [⟨8⟩, ⟨7⟩, ⟨6⟩] else []

/-- C7: with pages [10, 9, 8] then [8, 7, 6] and `min_count = 5` (both pages
needed), `get_user_timeline` returns exactly the posts 10, 9, 8, 7, 6: the
single post equal to the previous watermark `max_id = 8` is dropped from the
second page before accumulating, so no duplicate appears. -/
theorem claim7_timeline_dedup :
    get_user_timeline twoPages 5 5 = [⟨10⟩, ⟨9⟩, ⟨8⟩, ⟨7⟩, ⟨6⟩]
    ∧ (get_user_timeline twoPages 5 5).map Status.id = [10, 9, 8, 7, 6] := by
  decide

/-! ### get_followers (claim C8) -/

/-- One page returned by
`self._parallel_call(GetFollowerIDs, user_id, screen_name, cursor, batch)`:
the `(next_cursor, previous_cursor, user_ids)` triple. -/
structure FollowResp where
  next : Int
  prev : Int
  ids : List Nat
deriving DecidableEq

/-- The loop-exit test of `get_followers`, checked after accumulating a page:
`next_cursor == 0 or next_cursor == prev_cursor or users_count >= min_count`. -/
def followStop (min_count : Nat) (r : FollowResp) (cnt : Nat) : Bool :=
  r.next == 0 || r.next == r.prev || min_count ≤ cnt

/-- Translation of the `while True` loop of
`ParallelTwitterClient.get_followers` (with `streaming_fn = None`, the raw
path: `fn_result.extend(user_ids)`), parameterised by the scheduler call as
a function of the cursor and page size it receives.  Returns the accumulated
ids (`none` when the fuel bound is hit before any stop condition, standing
for non-termination) and the `(cursor, pageSize)` trace of scheduler calls. -/
def followersLoop (oracle : Int → Nat → FollowResp) (min_count batch : Nat) :
    Nat → Int → List Nat → Nat → Option (List Nat) × List (Int × Nat)
  | 0, _, _, _ => (none, [])
  | fuel + 1, cursor, acc, cnt =>
    let r := oracle cursor batch
    let acc' := acc ++ r.ids
    let cnt' := cnt + r.ids.length
    if followStop min_count r cnt' then (some acc', [(cursor, batch)])
    else
      let r2 := followersLoop oracle min_count batch fuel r.next acc' cnt'
      (r2.1, (cursor, batch) :: r2.2)

/-- Translation of `ParallelTwitterClient.get_followers`: clamp the batch to
`min(batch_size, min_count)` and loop from cursor `-1` with no ids yet. -/
def get_followers (oracle : Int → Nat → FollowResp)
    (min_count batch_size fuel : Nat) : Option (List Nat) × List (Int × Nat) :=
  followersLoop oracle min_count (min batch_size min_count) fuel (-1) [] 0

/-- The chain condition along a trace of follower calls: every call but the
last fails the stop test and hands its `next` cursor to the following call,
and the last call passes the stop test, counting ids cumulatively from
`cnt`. -/
def chainStops (oracle : Int → Nat → FollowResp) (min_count : Nat) :
    List (Int × Nat) → Nat → Bool
  | [], _ => false
  | [(c, b)], cnt =>
    followStop min_count (oracle c b) (cnt + (oracle c b).ids.length)
  | (c, b) :: (c', b') :: rest, cnt =>
    !followStop min_count (oracle c b) (cnt + (oracle c b).ids.length)
      && (oracle c b).next == c'
      && chainStops oracle min_count ((c', b') :: rest)
           (cnt + (oracle c b).ids.length)

theorem followersLoop_spec (oracle : Int → Nat → FollowResp)
    (min_count batch : Nat) :
    ∀ (fuel : Nat) (cursor : Int) (acc : List Nat) (cnt : Nat)
      (out : List Nat) (calls : List (Int × Nat)),
      followersLoop oracle min_count batch fuel cursor acc cnt = (some out, calls) →
      calls.head?.map Prod.fst = some cursor
      ∧ (∀ p ∈ calls, p.2 = batch)
      ∧ chainStops oracle min_count calls cnt = true
      ∧ out = acc ++ (calls.map (fun p => (oracle p.1 p.2).ids)).flatten := by
  intro fuel
  induction fuel with
  | zero =>
    intro cursor acc cnt out calls h
    rw [followersLoop] at h
    exact absurd h (by simp)
  | succ n ih =>
    intro cursor acc cnt out calls h
    rw [followersLoop] at h
    by_cases hstop : followStop min_count (oracle cursor batch)
        (cnt + (oracle cursor batch).ids.length) = true
    · rw [if_pos hstop] at h
      have h1 := congrArg Prod.fst h
      have h2 := congrArg Prod.snd h
      simp only at h1 h2
      rw [← h2]
      refine ⟨rfl, by simp, ?_, ?_⟩
      · rw [chainStops]
        exact hstop
      · have hout : acc ++ (oracle cursor batch).ids = out := by
          simpa using h1
        simp [← hout]
    · rw [if_neg hstop] at h
      rw [Bool.not_eq_true] at hstop
      have h1 := congrArg Prod.fst h
      have h2 := congrArg Prod.snd h
      simp only at h1 h2
      obtain ⟨ihHead, ihBatch, ihChain, ihOut⟩ :=
        ih (oracle cursor batch).next (acc ++ (oracle cursor batch).ids)
          (cnt + (oracle cursor batch).ids.length) out
          (followersLoop oracle min_count batch n (oracle cursor batch).next
            (acc ++ (oracle cursor batch).ids)
            (cnt + (oracle cursor batch).ids.length)).2
          (by rw [← h1])
      rw [← h2]
      refine ⟨rfl, ?_, ?_, ?_⟩
      · intro p hp
        rcases List.mem_cons.1 hp with hp | hp
        · rw [hp]
        · exact ihBatch p hp
      · rcases hrec : (followersLoop oracle min_count batch n (oracle cursor batch).next
            (acc ++ (oracle cursor batch).ids)
            (cnt + (oracle cursor batch).ids.length)).2 with _ | ⟨⟨q1, q2⟩, qs⟩
        · rw [hrec] at ihHead
          simp at ihHead
        · rw [hrec] at ihHead ihChain
          have hq : q1 = (oracle cursor batch).next := by
            simpa using ihHead
          rw [hq] at ihChain ⊢
          rw [chainStops, hstop]
          simp only [Bool.not_false, Bool.true_and, Bool.and_eq_true,
                     beq_self_eq_true, true_and]
          exact ihChain
      · rw [ihOut]
        simp

/-- C8: whenever `get_followers` terminates, its scheduler-call trace starts
at cursor `-1`, every call requests `min(batch_size, min_count)` ids, each
call but the last fails the stop test (`nextCursor = 0`, or
`nextCursor = previousCursor`, or accumulated raw id count `>= min_count`)
and hands its `nextCursor` to the following call, the last call passes the
stop test, and the returned ids are the concatenation of the received
pages. -/
theorem claim8_followers (oracle : Int → Nat → FollowResp)
    (min_count batch_size fuel : Nat) (out : List Nat) (calls : List (Int × Nat))
    (h : get_followers oracle min_count batch_size fuel = (some out, calls)) :
    calls.head?.map Prod.fst = some (-1)
    ∧ (∀ p ∈ calls, p.2 = min batch_size min_count)
    ∧ chainStops oracle min_count calls 0 = true
    ∧ out = (calls.map (fun p => (oracle p.1 p.2).ids)).flatten := by
  have hspec := followersLoop_spec oracle min_count (min batch_size min_count)
    fuel (-1) [] 0 out calls h
  simpa using hspec

theorem claim8_witness :
    chainStops (fun _ _ => FollowResp.mk 0 7 [3]) 10 [(-1, 10)] 0 = true
    ∧ (((-1 : Int), (10 : Nat)).2 = min 5000 10)
    ∧ ([3] : List Nat)
      = (([(-1, 10)] : List (Int × Nat)).map
          (fun p => ((fun (_ : Int) (_ : Nat) => FollowResp.mk 0 7 [3]) p.1 p.2).ids)).flatten :=
  ⟨(claim8_followers (fun _ _ => FollowResp.mk 0 7 [3]) 10 5000 5 [3] [(-1, 10)]
      (by decide)).2.2.1,
   (claim8_followers (fun _ _ => FollowResp.mk 0 7 [3]) 10 5000 5 [3] [(-1, 10)]
      (by decide)).2.1 ((-1 : Int), (10 : Nat)) (by decide),
   (claim8_followers (fun _ _ => FollowResp.mk 0 7 [3]) 10 5000 5 [3] [(-1, 10)]
      (by decide)).2.2.2⟩

/-! ### calculate_industry_group (claims C9 and C10) -/

/-- Lookup in the `n_followers` map (a `defaultdict(int)`, modelled as an
association list in insertion order): the count of a key, 0 when absent. -/
def lookupCount (m : List (Nat × Nat)) (k : Nat) : Nat :=
  match m.find? (fun p => p.1 == k) with
  | some p => p.2
  | none => 0

/-- The membership test `f in n_followers`. -/
def hasKey (m : List (Nat × Nat)) (k : Nat) : Bool :=
  m.any (fun p => p.1 == k)

/-- The update `n_followers[f] += 1`: bump the existing entry, else append
the key with count 1 (a `defaultdict(int)` materialises the key on its first
`+= 1`). -/
def incr (m : List (Nat × Nat)) (k : Nat) : List (Nat × Nat) :=
  if hasKey m k then m.map (fun p => if p.1 == k then (p.1, p.2 + 1) else p)
  else m ++ [(k, 1)]

/-- The `for f in user_friends` body of `calculate_industry_group`: enqueue
`(f, n + 1)` when `n < depth` and `f` is not yet a key of the map (the check
happens before the increment, as in the source), then increment `f`'s
count. -/
def processFriends (depth n : Nat) (fr : List Nat)
    (queue m : List (Nat × Nat)) : List (Nat × Nat) × List (Nat × Nat) :=
  fr.foldl
    (fun acc f =>
      ((if n < depth && !(hasKey acc.2 f) then acc.1 ++ [(f, n + 1)] else acc.1),
       incr acc.2 f))
    (queue, m)

/-- The `while len(users_queue) > 0` loop of `calculate_industry_group`: pop
the head of the FIFO queue, fetch the node's friends through the scheduler
(each fetch is recorded in the third component), process them, recurse.
`fuel` bounds the iterations; the Bool records whether the queue emptied
within the fuel (every concrete run below completes with `true`). -/
def bfsLoop (friends : Nat → List Nat) (depth : Nat) :
    Nat → List (Nat × Nat) → List (Nat × Nat) → List Nat →
    List (Nat × Nat) × List Nat × Bool
  | _, [], m, fetched => (m, fetched, true)
  | 0, _ :: _, m, fetched => (m, fetched, false)
  | fuel + 1, (u, n) :: rest, m, fetched =>
    let s := processFriends depth n (friends u) rest m
    bfsLoop friends depth fuel s.1 s.2 (fetched ++ [u])

/-- Translation of `examples.calculate_industry_group`, parameterised by the
node-to-friends function that `client.get_friend_ids` realises (the returned
set is modelled as the list of its iteration order).  Every seed enters the
queue at depth 0 with the count map empty — seeds are *not* entered into the
map. -/
def calculate_industry_group (friends : Nat → List Nat) (seed : List Nat)
    (depth fuel : Nat) : List (Nat × Nat) × List Nat × Bool :=
  bfsLoop friends depth fuel (seed.map (fun u => (u, 0))) [] []

theorem bfsLoop_nil (friends : Nat → List Nat) (depth fuel : Nat)
    (m : List (Nat × Nat)) (fetched : List Nat) :
    bfsLoop friends depth fuel [] m fetched = (m, fetched, true) := by
  cases fuel <;> rfl

theorem bfsLoop_zero (friends : Nat → List Nat) (depth u n : Nat)
    (rest m : List (Nat × Nat)) (fetched : List Nat) :
    bfsLoop friends depth 0 ((u, n) :: rest) m fetched = (m, fetched, false) := rfl

theorem bfsLoop_succ (friends : Nat → List Nat) (depth fuel u n : Nat)
    (rest m : List (Nat × Nat)) (fetched : List Nat) :
    bfsLoop friends depth (fuel + 1) ((u, n) :: rest) m fetched
      = bfsLoop friends depth fuel (processFriends depth n (friends u) rest m).1
          (processFriends depth n (friends u) rest m).2 (fetched ++ [u]) := rfl

/-- C9: on the graph where node 1 follows 2 and 3, node 2 follows 3 and 4,
and every other node follows nobody, `calculate_industry_group` from seed 1
with depth 1 returns the in-degree map 2 ↦ 1, 3 ↦ 2, 4 ↦ 1 (and no other
key); node 2 is expanded (its friends fetched, having been discovered at
depth 1 ≤ depth) while node 4 is counted but never expanded, and the
traversal completes. -/
theorem claim9_industry_group :
    calculate_industry_group
        (fun u => if u = 1 then [2, 3] else if u = 2 then [3, 4] else [])
        [1] 1 10
      = ([(2, 1), (3, 2), (4, 1)], [1, 2, 3], true)
    ∧ lookupCount (calculate_industry_group
        (fun u => if u = 1 then [2, 3] else if u = 2 then [3, 4] else [])
        [1] 1 10).1 2 = 1
    ∧ lookupCount (calculate_industry_group
        (fun u => if u = 1 then [2, 3] else if u = 2 then [3, 4] else [])
        [1] 1 10).1 3 = 2
    ∧ lookupCount (calculate_industry_group
        (fun u => if u = 1 then [2, 3] else if u = 2 then [3, 4] else [])
        [1] 1 10).1 4 = 1
    ∧ 2 ∈ (calculate_industry_group
        (fun u => if u = 1 then [2, 3] else if u = 2 then [3, 4] else [])
        [1] 1 10).2.1
    ∧ 4 ∉ (calculate_industry_group
        (fun u => if u = 1 then [2, 3] else if u = 2 then [3, 4] else [])
        [1] 1 10).2.1 := by
  decide

/-- C10: the at-most-once-expansion claim fails for seed nodes.  Seeds are
enqueued without being entered into `n_followers`, so a seed rediscovered
through the graph is enqueued — and expanded — a second time: with seed 1,
depth 2, and the two-cycle 1 → 2 → 1, node 1's friends are fetched twice
(fetch trace [1, 2, 1]) even though the traversal completes normally. -/
theorem claim10_counterexample :
    ((calculate_industry_group
        (fun u => if u = 1 then [2] else if u = 2 then [1] else [])
        [1] 2 10).2.1).count 1 = 2
    ∧ (calculate_industry_group
        (fun u => if u = 1 then [2] else if u = 2 then [1] else [])
        [1] 2 10).2.2 = true := by
  decide

theorem hasKey_iff (m : List (Nat × Nat)) (k : Nat) :
    hasKey m k = true ↔ k ∈ m.map Prod.fst := by
  rw [hasKey, List.any_eq_true]
  simp only [beq_iff_eq, List.mem_map]

theorem map_fst_incr (m : List (Nat × Nat)) (k : Nat) :
    (incr m k).map Prod.fst
      = if hasKey m k then m.map Prod.fst else m.map Prod.fst ++ [k] := by
  rw [incr]
  split
  · rw [List.map_map]
    refine List.map_congr_left ?_
    intro p _
    show (if p.1 == k then (p.1, p.2 + 1) else p).1 = p.1
    split <;> rfl
  · simp

theorem hasKey_incr_self (m : List (Nat × Nat)) (k : Nat) :
    hasKey (incr m k) k = true := by
  rw [hasKey_iff, map_fst_incr]
  split
  · rw [← hasKey_iff]
    assumption
  · simp

theorem hasKey_incr_ne (m : List (Nat × Nat)) {g k : Nat} (h : g ≠ k) :
    hasKey (incr m g) k = hasKey m k := by
  rcases hmk : hasKey m k with _ | _
  · rw [← Bool.not_eq_true] at hmk ⊢
    rw [hasKey_iff, map_fst_incr]
    rw [hasKey_iff] at hmk
    split
    · exact hmk
    · simp only [List.mem_append, List.mem_singleton]
      rintro (hk | hk)
      · exact hmk hk
      · exact h hk.symm
  · rw [hasKey_iff, map_fst_incr]
    rw [hasKey_iff] at hmk
    split <;> simp [hmk]

/-- The friend fold preserves the once-only invariant for a node `f` outside
the seeds: its occurrences in queue-plus-fetched stay at most one, and
whenever it occurs at all it is already a key of the count map (so the
`f not in n_followers` guard can never enqueue it again). -/
theorem processFriends_invariant (depth n f : Nat) :
    ∀ (fr : List Nat) (q m : List (Nat × Nat)) (c : Nat),
      (q.map Prod.fst).count f + c ≤ 1 →
      (hasKey m f = true ∨ (q.map Prod.fst).count f + c = 0) →
      ((processFriends depth n fr q m).1.map Prod.fst).count f + c ≤ 1
      ∧ (hasKey (processFriends depth n fr q m).2 f = true
         ∨ ((processFriends depth n fr q m).1.map Prod.fst).count f + c = 0) := by
  intro fr
  induction fr with
  | nil =>
    intro q m c h1 h2
    exact ⟨h1, h2⟩
  | cons x xs ih =>
    intro q m c h1 h2
    have hstep : processFriends depth n (x :: xs) q m
        = processFriends depth n xs
            (if n < depth && !(hasKey m x) then q ++ [(x, n + 1)] else q)
            (incr m x) := rfl
    rw [hstep]
    by_cases hxf : x = f
    · subst hxf
      by_cases henq : (decide (n < depth) && !(hasKey m x)) = true
      · have hnk : hasKey m x = false := by
          rcases Bool.and_eq_true_iff.1 henq with ⟨_, hb⟩
          simpa using hb
        have hzero : (q.map Prod.fst).count x + c = 0 := by
          rcases h2 with h2 | h2
          · rw [hnk] at h2
            exact absurd h2 (by simp)
          · exact h2
        rw [if_pos henq]
        refine ih _ _ c ?_ ?_
        · rw [List.map_append, List.count_append]
          simp [List.count_singleton']
          omega
        · left
          exact hasKey_incr_self m x
      · rw [if_neg henq]
        refine ih _ _ c h1 ?_
        left
        exact hasKey_incr_self m x
    · have hq : ((if decide (n < depth) && !(hasKey m x) then q ++ [(x, n + 1)]
          else q).map Prod.fst).count f = (q.map Prod.fst).count f := by
        split
        · rw [List.map_append, List.count_append]
          simp [List.count_singleton', hxf]
        · rfl
      refine ih _ _ c (by rw [hq]; exact h1) ?_
      rcases h2 with h2 | h2
      · left
        rw [hasKey_incr_ne m hxf]
        exact h2
      · right
        rw [hq]
        exact h2

/-- Along the whole traversal loop, a node satisfying the once-only
invariant is fetched at most once. -/
theorem bfsLoop_count (friends : Nat → List Nat) (depth f : Nat) :
    ∀ (fuel : Nat) (queue m : List (Nat × Nat)) (fetched : List Nat),
      (queue.map Prod.fst).count f + fetched.count f ≤ 1 →
      (hasKey m f = true ∨ (queue.map Prod.fst).count f + fetched.count f = 0) →
      ((bfsLoop friends depth fuel queue m fetched).2.1).count f ≤ 1 := by
  intro fuel
  induction fuel with
  | zero =>
    intro queue m fetched h1 h2
    cases queue with
    | nil =>
      rw [bfsLoop_nil]
      show fetched.count f ≤ 1
      omega
    | cons p rest =>
      obtain ⟨u, n⟩ := p
      rw [bfsLoop_zero]
      show fetched.count f ≤ 1
      omega
  | succ nf ih =>
    intro queue m fetched h1 h2
    cases queue with
    | nil =>
      rw [bfsLoop_nil]
      show fetched.count f ≤ 1
      omega
    | cons p rest =>
      obtain ⟨u, n⟩ := p
      rw [bfsLoop_succ]
      have hcnt : (rest.map Prod.fst).count f + (fetched ++ [u]).count f
          = (((u, n) :: rest).map Prod.fst).count f + fetched.count f := by
        rw [List.count_append, List.map_cons, List.count_cons]
        by_cases huf : u = f
        · subst huf
          simp [List.count_singleton']
          omega
        · simp [List.count_singleton', List.count_cons, huf, Ne.symm huf]
      obtain ⟨hp1, hp2⟩ := processFriends_invariant depth n f (friends u) rest m
        ((fetched ++ [u]).count f)
        (by rw [hcnt]; exact h1)
        (by rcases h2 with h2 | h2
            · exact Or.inl h2
            · exact Or.inr (by rw [hcnt]; exact h2))
      exact ih _ _ _ hp1 hp2

/-- C10 (amended): every node *not in the seed list* is expanded (its
friends fetched) at most once, at its first discovery, no matter how often
it is re-encountered: once discovered it is a key of `n_followers` and the
`f not in n_followers` guard can never enqueue it again.  Seed nodes are the
exception exhibited by the counterexample: they enter the queue without
being entered into the map, so a rediscovered (or repeated) seed is expanded
again. -/
theorem claim10_amended (friends : Nat → List Nat) (seed : List Nat)
    (depth fuel f : Nat) (hf : f ∉ seed) :
    ((calculate_industry_group friends seed depth fuel).2.1).count f ≤ 1 := by
  rw [calculate_industry_group]
  have hmap : (seed.map (fun u => (u, 0))).map Prod.fst = seed := by
    rw [List.map_map]
    exact List.map_id' seed
  refine bfsLoop_count friends depth f fuel _ [] [] ?_ ?_
  · rw [hmap]
    simp [List.count_eq_zero.2 hf]
  · right
    rw [hmap]
    simp [List.count_eq_zero.2 hf]

theorem claim10_witness :
    ((calculate_industry_group (fun _ => ([] : List Nat)) [1] 0 1).2.1).count 2 ≤ 1 :=
  claim10_amended (fun _ => []) [1] 0 1 2 (by decide)

end ParallelTwitter
